import Mathlib

/-!
Shallow embedding of `src/main.rs` (party_recogniser_naive_bayes): a categorical
Naive Bayes classifier over congressional voting records, evaluated by 10-fold
cross-validation.

Modelling conventions:
* `f64` arithmetic is embedded exactly: the fitted probability tables are `ℚ`
  (every value the fit produces is a finite sum of `1/n` terms, exact in `f64`
  only up to rounding; the claims are stated over the exact real/rational
  embedding), and the `log10`-based scores are `ℝ` via `Real.logb 10`.
* Rust `HashMap<Class, _>` / `HashMap<Choice, _>` tables are embedded as total
  functions out of the (closed, small) key enumerations.
* Rust panics (zero chunk size in `chunks_exact`, out-of-bounds `Vec` indexing
  in the remainder loop) are embedded by returning `none` from
  `split_for_crossvalidation`.
* `thread_rng` shuffling is not embedded: `split_for_crossvalidation` receives
  the already-shuffled sequence. Every property considered here is either
  order-independent or quantifies over all input orders, and every order is a
  possible shuffle result, so this loses nothing.
* `Vec` indexing `row.attributes[i]` is embedded as `List.getD i Choice.Unknown`;
  records produced by the parser always carry exactly `ATTRIBUTES_COUNT`
  attributes, so the default is never consulted on real data.
-/

namespace PartyRecogniser

/-- Constant `ATTRIBUTES_COUNT` from `main.rs` line 11. -/
abbrev ATTRIBUTES_COUNT : ℕ := 16

/-- Constant `CROSSVALIDATION_SPLITS` from `main.rs` line 12. -/
abbrev CROSSVALIDATION_SPLITS : ℕ := 10

/-- Constant `CHOICES_COUNT` from `main.rs` line 13. -/
abbrev CHOICES_COUNT : ℕ := 3

/-- Constant `CLASSES_COUNT` from `main.rs` line 14. -/
abbrev CLASSES_COUNT : ℕ := 2

/-- The `Choice` enum from `main.rs` lines 16-21. -/
inductive Choice : Type
  | Yes
  | No
  | Unknown
deriving DecidableEq, Fintype, Inhabited

/-- The `Class` enum from `main.rs` lines 23-27. -/
inductive Class : Type
  | Republican
  | Democrat
deriving DecidableEq, Fintype, Inhabited

/-- The `Row` struct from `main.rs` lines 29-33. -/
structure Row : Type where
  «class» : Class
  attributes : List Choice
deriving DecidableEq, Inhabited

/-- Embedding of Rust `data.chunks_exact(k)` (an iterator over the
`data.len() / k` contiguous chunks of exactly `k` elements; the up-to-`k-1`
trailing elements are not yielded). Only meaningful for `k ≠ 0`; the caller
models the `k = 0` panic separately. -/
def chunksExact (k : ℕ) (data : List Row) : List (List Row) :=
  (List.range (data.length / k)).map fun j => (data.drop (j * k)).take k

/-- The function `split_for_crossvalidation` from `main.rs` lines 47-63,
applied to the already-shuffled data (see the module comment). Returns `none`
exactly where the Rust code panics:
* `chunk_size = 0` (i.e. `data.len() < 10`): `chunks_exact(0)` panics;
* the remainder loop reads `data[res_len + i]` for `i < remainder`, which
  panics when `res_len + remainder - 1 ≥ data.len()`.
The remainder loop pushes `data[res_len + i]` onto fold `i` (the loop counter
`res_counter` equals `i`); note it indexes from `res_len`, the number of
chunks, not from the end of the chunked region. -/
def split_for_crossvalidation (data : List Row) : Option (List (List Row)) :=
  let chunk_size := data.length / CROSSVALIDATION_SPLITS
  let remainder := data.length % CROSSVALIDATION_SPLITS
  if chunk_size = 0 then
    none
  else
    let res := chunksExact chunk_size data
    let res_len := res.length
    if remainder ≠ 0 ∧ data.length < res_len + remainder then
      none
    else
      some (List.zipWith
        (fun i fold => if i < remainder then fold ++ [data.getD (res_len + i) default] else fold)
        (List.range res_len) res)

end PartyRecogniser
namespace PartyRecogniser

/-- Rust `row.attributes[i]` (`Vec` indexing). Records built by `read_input`
always have exactly `ATTRIBUTES_COUNT` attributes, so the `getD` default is
never consulted on data the program actually constructs. -/
def attrAt (row : Row) (i : ℕ) : Choice := row.attributes.getD i Choice.Unknown

/-- The `Model` struct from `main.rs` lines 91-95. The Rust
`HashMap<Class, Vec<HashMap<Choice, f64>>>` and `HashMap<Class, f64>` are
embedded as total functions out of the closed key enumerations, and `f64`
values as exact rationals (see the module comment). -/
@[ext]
structure Model : Type where
  attr_probs : Class → Fin ATTRIBUTES_COUNT → Choice → ℚ
  class_probs : Class → ℚ

/-- The first loop of `Model::new` (`main.rs` lines 105-114): after inserting
an entry for every class (lines 102-103), the code iterates over the map and
sets, for each visited class, all `ATTRIBUTES_COUNT × 3` attribute cells to
`1 / data.len()`. The `HashMap` iteration order is modelled by the `order`
parameter (a permutation of the two inserted classes on any real run); classes
not visited keep the "no entry" placeholder `0`. -/
def initAttrProbs (n : ℕ) (order : List Class) : Class → Fin ATTRIBUTES_COUNT → Choice → ℚ :=
  order.foldl (fun attr_probs c => Function.update attr_probs c fun _ _ => 1 / (n : ℚ))
    (fun _ _ _ => 0)

/-- One iteration of the main loop of `Model::new` (`main.rs` lines 119-132):
the probability of the class of the row grows by `1 / data.len()`, and for each
attribute index `i` the cell `attr_probs[row.class][i][row.attributes[i]]`
grows by `1 / data.len()`. -/
def fitStep (n : ℕ) (m : Model) (row : Row) : Model where
  attr_probs := fun c i v =>
    if row.«class» = c ∧ attrAt row ↑i = v then m.attr_probs c i v + 1 / (n : ℚ)
    else m.attr_probs c i v
  class_probs := fun c =>
    if row.«class» = c then m.class_probs c + 1 / (n : ℚ) else m.class_probs c

/-- The insertion order of the class entries at `main.rs` lines 102-103. -/
def classes : List Class := [Class.Republican, Class.Democrat]

/-- Function `Model::new` from `main.rs` lines 98-141, with the `HashMap` iteration
order of the first loop exposed as `order` (see `initAttrProbs`). -/
def Model.newWithOrder (order : List Class) (data : List Row) : Model :=
  data.foldl (fitStep data.length)
    { attr_probs := initAttrProbs data.length order, class_probs := fun _ => 0 }

/-- Function `Model::new` with the iteration order fixed to the insertion order; by
`model_fit_deterministic` below the choice of order is irrelevant. -/
def Model.new (data : List Row) : Model :=
  Model.newWithOrder classes data

/-- Function `Model::predict_class` from `main.rs` lines 143-153: `res` starts at `0`,
gains `log10` of the class probability, then gains `log10` of the attribute
probability for each attribute index in order. -/
noncomputable def predict_class (m : Model) (row : Row) (c : Class) : ℝ :=
  (List.finRange ATTRIBUTES_COUNT).foldl
    (fun res i => res + Real.logb 10 (m.attr_probs c i (attrAt row ↑i) : ℝ))
    (0 + Real.logb 10 (m.class_probs c : ℝ))

/-- Function `Model::predict` from `main.rs` lines 155-164: Republican exactly when its
score is strictly greater; on a tie (or when Democrat scores higher) the `if`
falls through to Democrat. -/
noncomputable def predict (m : Model) (row : Row) : Class :=
  if predict_class m row Class.Republican > predict_class m row Class.Democrat then
    Class.Republican
  else
    Class.Democrat

/-- Function `Model::get_accuracy` from `main.rs` lines 166-178: `res` starts at `0`
and gains `1 / testing_set.len()` for every row whose prediction matches its
label. The loop body never runs on an empty testing set, so the division by
`testing_set.len()` is never executed there. -/
noncomputable def get_accuracy (m : Model) (testing_set : List Row) : ℝ :=
  testing_set.foldl
    (fun res row =>
      if predict m row = row.«class» then res + 1 / (testing_set.length : ℝ) else res)
    0

/-- Number of rows of a testing set whose prediction matches their label. -/
noncomputable def correct_count (m : Model) (testing_set : List Row) : ℕ :=
  (testing_set.filter fun row => decide (predict m row = row.«class»)).length

/-- One iteration of the accumulation of `avg_accuracy` in `main` (`main.rs`
lines 195-199): the running `Option` gains `accuracy / CROSSVALIDATION_SPLITS`,
starting at `Some(accuracy / CROSSVALIDATION_SPLITS)` on the first fold. -/
noncomputable def driver_step (avg_accuracy : Option ℝ) (accuracy : ℝ) : Option ℝ :=
  match avg_accuracy with
  | some average_acc => some (average_acc + accuracy / (CROSSVALIDATION_SPLITS : ℝ))
  | none => some (accuracy / (CROSSVALIDATION_SPLITS : ℝ))

/-- The mean-accuracy accumulation of the cross-validation driver (`main.rs`
lines 184-202), as a function of the per-fold accuracies in fold order. -/
noncomputable def driver_avg (accuracies : List ℝ) : Option ℝ :=
  accuracies.foldl driver_step none

/-- Number of records of class `c` in a training set (the quantity the class
prior is claimed to estimate). -/
def countClass (data : List Row) (c : Class) : ℕ :=
  (data.filter fun row => decide (row.«class» = c)).length

/-- Number of records of class `c` whose attribute `i` has value `v` (the
quantity the attribute likelihood is claimed to estimate). -/
def countAttr (data : List Row) (c : Class) (i : ℕ) (v : Choice) : ℕ :=
  (data.filter fun row => decide (row.«class» = c ∧ attrAt row i = v)).length

/-- A row with `j` `Yes` attributes; rows with distinct `j` are distinct, which
lets concrete inputs below exhibit duplication or omission of records. -/
def mkRow (j : ℕ) : Row := ⟨Class.Republican, List.replicate j Choice.Yes⟩

/-- A 21-record input (one possible shuffle order of any 21-record store). -/
def data21 : List Row := (List.range 21).map mkRow

/-- A 27-record input (one possible shuffle order of any 27-record store). -/
def data27 : List Row := (List.range 27).map mkRow

/-- An 11-record input (one possible shuffle order of any 11-record store). -/
def data11 : List Row := (List.range 11).map mkRow

/-- A row whose 16 attributes are all `Yes`. -/
def yesRow (c : Class) : Row := ⟨c, List.replicate ATTRIBUTES_COUNT Choice.Yes⟩

/-- A two-record training set that is completely symmetric between the two
classes: fitting it gives both classes identical probability tables, so both
class scores coincide on an all-`Yes` record. -/
def T_tie : List Row := [yesRow Class.Republican, yesRow Class.Democrat]

/-- A Democrat-labelled all-`Yes` test record: its two class scores under
`Model.new T_tie` are exactly equal. -/
def r_test : Row := yesRow Class.Democrat

/-- The model fitted on the symmetric training set. -/
def M_tie : Model := Model.new T_tie

end PartyRecogniser

namespace PartyRecogniser

/-- Claim C1: the claim says `split_for_crossvalidation` covers every input record
exactly once. The code instead re-reads `data[res_len + i]` (with `res_len`
the number of chunks) in its remainder loop: on the 21-record input `data21`
the returned folds contain the record `mkRow 10` twice (it lies in chunk 5 and
is also pushed onto fold 0 as a "remainder") and never contain the final
record `mkRow 20`, although each occurs exactly once in the input. -/
theorem split_duplicates_and_omits :
    ((split_for_crossvalidation data21).map fun folds =>
      (folds.flatten.count (mkRow 10), folds.flatten.count (mkRow 20))) = some (2, 0) ∧
    data21.count (mkRow 10) = 1 ∧ data21.count (mkRow 20) = 1 := by
  decide

/-- Claim C6: the claim says every input with `M ≥ K` records yields exactly `K = 10`
folds whose sizes differ by at most 1. The code instead produces
`M div (M div K)` chunks: the 27-record input yields 13 folds, and the
11-record input makes the remainder loop index out of bounds (`data[11]`),
a panic, embedded as `none`. -/
theorem split_wrong_fold_count :
    (split_for_crossvalidation data27).map List.length = some 13 ∧
    data27.length = 27 ∧
    split_for_crossvalidation data11 = none ∧
    data11.length = 11 := by
  decide

/-- Claim C10: on an input with fewer than `CROSSVALIDATION_SPLITS = 10` records the
computed chunk size `M div K` is `0`, and `chunks_exact(0)` panics (embedded as
`none`), so no folds (in particular no empty folds) are ever returned. -/
theorem split_small_input_fails (data : List Row)
    (h : data.length < CROSSVALIDATION_SPLITS) :
    data.length / CROSSVALIDATION_SPLITS = 0 ∧ split_for_crossvalidation data = none := by
  have h0 : data.length / CROSSVALIDATION_SPLITS = 0 := Nat.div_eq_of_lt h
  exact ⟨h0, by simp [split_for_crossvalidation, h0]⟩

/-- Witness for `split_small_input_fails` at the empty input. -/
theorem split_small_input_fails_witness :
    ([] : List Row).length < CROSSVALIDATION_SPLITS ∧
    (([] : List Row).length / CROSSVALIDATION_SPLITS = 0 ∧
      split_for_crossvalidation ([] : List Row) = none) :=
  ⟨by decide, split_small_input_fails [] (by decide)⟩

end PartyRecogniser

namespace PartyRecogniser

/-- The first loop of `Model::new` sets the whole table of every visited class to
the constant `1 / n`, so the resulting value at a class depends only on
whether that class was visited, never on the visiting order. -/
lemma initAttrProbs_apply (n : ℕ) (order : List Class) (c : Class)
    (i : Fin ATTRIBUTES_COUNT) (v : Choice) :
    initAttrProbs n order c i v = if c ∈ order then 1 / (n : ℚ) else 0 := by
  unfold initAttrProbs
  suffices h : ∀ f : Class → Fin ATTRIBUTES_COUNT → Choice → ℚ,
      (order.foldl (fun attr_probs c' => Function.update attr_probs c' fun _ _ => 1 / (n : ℚ)) f)
          c i v
        = if c ∈ order then 1 / (n : ℚ) else f c i v from h _
  induction order with
  | nil => intro f; simp
  | cons e rest ih =>
    intro f
    rw [List.foldl_cons, ih]
    by_cases hc : c ∈ rest
    · simp [hc]
    · by_cases he : c = e
      · subst he; simp [hc, Function.update_apply]
      · simp [hc, he, Function.update_apply]

/-- Folding the training loop over a list adds `1 / n` to a class entry once
per record of that class. -/
lemma foldl_fitStep_class_probs (n : ℕ) (l : List Row) :
    ∀ (m : Model) (c : Class),
      (l.foldl (fitStep n) m).class_probs c
        = m.class_probs c + (countClass l c : ℚ) * (1 / (n : ℚ)) := by
  induction l with
  | nil => intro m c; simp [countClass]
  | cons row t ih =>
    intro m c
    rw [List.foldl_cons, ih]
    by_cases h : row.«class» = c
    · simp [countClass, fitStep, List.filter_cons, h]
      ring
    · simp [countClass, fitStep, List.filter_cons, h]

/-- Folding the training loop over a list adds `1 / n` to an attribute cell
once per record of that class carrying that attribute value. -/
lemma foldl_fitStep_attr_probs (n : ℕ) (l : List Row) :
    ∀ (m : Model) (c : Class) (i : Fin ATTRIBUTES_COUNT) (v : Choice),
      (l.foldl (fitStep n) m).attr_probs c i v
        = m.attr_probs c i v + (countAttr l c ↑i v : ℚ) * (1 / (n : ℚ)) := by
  induction l with
  | nil => intro m c i v; simp [countAttr]
  | cons row t ih =>
    intro m c i v
    rw [List.foldl_cons, ih]
    by_cases h : row.«class» = c ∧ attrAt row ↑i = v
    · simp [countAttr, fitStep, List.filter_cons, h]
      ring
    · simp [countAttr, fitStep, List.filter_cons, h]

/-- The fitted class entry is exactly the relative class frequency. -/
lemma new_class_probs_eq (data : List Row) (c : Class) :
    (Model.new data).class_probs c = (countClass data c : ℚ) / (data.length : ℚ) := by
  unfold Model.new Model.newWithOrder
  rw [foldl_fitStep_class_probs]
  simp [div_eq_mul_inv]

/-- The fitted attribute cell is exactly the smoothed relative frequency with
the whole-training-set denominator. -/
lemma new_attr_probs_eq (data : List Row) (c : Class) (i : Fin ATTRIBUTES_COUNT)
    (v : Choice) :
    (Model.new data).attr_probs c i v
      = (1 + (countAttr data c ↑i v : ℚ)) / (data.length : ℚ) := by
  unfold Model.new Model.newWithOrder
  rw [foldl_fitStep_attr_probs]
  dsimp only
  rw [initAttrProbs_apply]
  have hc : c ∈ classes := by cases c <;> simp [classes]
  rw [if_pos hc, mul_one_div, div_add_div_same]

/-- Claim C2: on any non-empty training set, the fitted class prior of `c` is
`(count of c) / |T|` with no smoothing, and the fitted likelihood of value `v`
at attribute `i` given class `c` is `(1 + count of (c,i,v)) / |T|`, the
denominator being the whole training-set size. -/
theorem model_new_probabilities (data : List Row) (hne : data ≠ []) (c : Class)
    (i : Fin ATTRIBUTES_COUNT) (v : Choice) :
    (Model.new data).class_probs c = (countClass data c : ℚ) / (data.length : ℚ) ∧
    (Model.new data).attr_probs c i v
      = (1 + (countAttr data c ↑i v : ℚ)) / (data.length : ℚ) :=
  ⟨new_class_probs_eq data c, new_attr_probs_eq data c i v⟩

/-- Witness for `model_new_probabilities` on the concrete two-record set. -/
theorem model_new_probabilities_witness :
    T_tie ≠ [] ∧
    ((Model.new T_tie).class_probs Class.Republican
        = (countClass T_tie Class.Republican : ℚ) / (T_tie.length : ℚ) ∧
      (Model.new T_tie).attr_probs Class.Republican 0 Choice.Yes
        = (1 + (countAttr T_tie Class.Republican 0 Choice.Yes : ℚ)) / (T_tie.length : ℚ)) :=
  ⟨by decide, model_new_probabilities T_tie (by decide) Class.Republican 0 Choice.Yes⟩

/-- Claim C4: every fitted attribute likelihood entry is strictly positive on a
non-empty training set, including never-observed (class, attribute, value)
triples, thanks to the `1 / |T|` floor. -/
theorem attr_probs_positive (data : List Row) (hne : data ≠ []) (c : Class)
    (i : Fin ATTRIBUTES_COUNT) (v : Choice) :
    0 < (Model.new data).attr_probs c i v := by
  rw [new_attr_probs_eq]
  have hn : 0 < (data.length : ℚ) := by
    have hp : 0 < data.length := List.length_pos.mpr hne
    exact_mod_cast hp
  apply div_pos _ hn
  positivity

/-- Witness for `attr_probs_positive` at a never-observed triple. -/
theorem attr_probs_positive_witness :
    T_tie ≠ [] ∧ 0 < (Model.new T_tie).attr_probs Class.Democrat 0 Choice.No :=
  ⟨by decide, attr_probs_positive T_tie (by decide) Class.Democrat 0 Choice.No⟩

end PartyRecogniser

namespace PartyRecogniser

/-- Accumulating `res += log10(...)` over a list is adding the sum of the
logarithms. -/
lemma foldl_add_logb (m : Model) (row : Row) (c : Class) :
    ∀ (l : List (Fin ATTRIBUTES_COUNT)) (a : ℝ),
      l.foldl (fun res i => res + Real.logb 10 (m.attr_probs c i (attrAt row ↑i) : ℝ)) a
        = a + (l.map fun i => Real.logb 10 (m.attr_probs c i (attrAt row ↑i) : ℝ)).sum := by
  intro l
  induction l with
  | nil => intro a; simp
  | cons x t ih =>
    intro a
    rw [List.foldl_cons, ih, List.map_cons, List.sum_cons]
    ring

/-- The score loop of `Model::predict_class` computes
`log10(class_probs[c]) + Σ_i log10(attr_probs[c][i][attributes[i]])`. -/
lemma predict_class_eq (m : Model) (row : Row) (c : Class) :
    predict_class m row c
      = Real.logb 10 (m.class_probs c : ℝ)
        + ∑ i : Fin ATTRIBUTES_COUNT,
            Real.logb 10 (m.attr_probs c i (attrAt row ↑i) : ℝ) := by
  unfold predict_class
  rw [foldl_add_logb, Fin.sum_univ_def, zero_add]

/-- The symmetric training set gives both classes the same prior. -/
lemma M_tie_class_probs :
    M_tie.class_probs Class.Republican = M_tie.class_probs Class.Democrat := by
  have h1 : countClass T_tie Class.Republican = countClass T_tie Class.Democrat := by decide
  rw [M_tie, new_class_probs_eq, new_class_probs_eq, h1]

/-- On the symmetric model the two class scores of `r_test` coincide exactly:
the priors agree by `M_tie_class_probs`, and the two likelihood sums are the
same term once the 16 indices are enumerated (the fitted tables are symmetric
in the two classes). -/
lemma predict_class_tie :
    predict_class M_tie r_test Class.Republican
      = predict_class M_tie r_test Class.Democrat := by
  rw [predict_class_eq, predict_class_eq, M_tie_class_probs]
  congr 1

/-- On the exact tie, the `if republican_prob > democrat_prob` test fails and
`predict` returns Democrat. -/
lemma predict_M_tie : predict M_tie r_test = Class.Democrat := by
  unfold predict
  rw [predict_class_tie]
  simp

/-- Claim C3 (amended): the score is `log10(prior) + Σ_i log10(likelihood)`, and
`predict` returns the strictly greatest-scoring class, except that on an exact
tie it returns Democrat (the second class), not Republican. -/
theorem predict_spec (m : Model) (row : Row) :
    (∀ c : Class, predict_class m row c
        = Real.logb 10 (m.class_probs c : ℝ)
          + ∑ i : Fin ATTRIBUTES_COUNT,
              Real.logb 10 (m.attr_probs c i (attrAt row ↑i) : ℝ)) ∧
    (predict_class m row Class.Republican > predict_class m row Class.Democrat →
      predict m row = Class.Republican) ∧
    (predict_class m row Class.Republican ≤ predict_class m row Class.Democrat →
      predict m row = Class.Democrat) := by
  refine ⟨fun c => predict_class_eq m row c, fun h => ?_, fun h => ?_⟩
  · unfold predict
    rw [if_pos h]
  · unfold predict
    rw [if_neg (not_lt.mpr h)]

/-- Witness for `predict_spec` on the concrete tie. -/
theorem predict_spec_witness :
    predict_class M_tie r_test Class.Republican
        ≤ predict_class M_tie r_test Class.Democrat ∧
    predict M_tie r_test = Class.Democrat :=
  ⟨le_of_eq predict_class_tie,
    (predict_spec M_tie r_test).2.2 (le_of_eq predict_class_tie)⟩

/-- Claim C3 counterexample: on the model fitted from the symmetric two-record set,
the two class scores of the all-`Yes` Democrat record are exactly equal, yet
`predict` returns Democrat — not Republican as the tie-break of the claim states. -/
theorem predict_tie_counterexample :
    predict_class M_tie r_test Class.Republican
        = predict_class M_tie r_test Class.Democrat ∧
    predict M_tie r_test = Class.Democrat ∧
    predict M_tie r_test ≠ Class.Republican :=
  ⟨predict_class_tie, predict_M_tie, by rw [predict_M_tie]; simp⟩

end PartyRecogniser

namespace PartyRecogniser

/-- The accuracy loop adds `q` once per correctly predicted row. -/
lemma get_accuracy_foldl (m : Model) (q : ℝ) :
    ∀ (l : List Row) (a : ℝ),
      l.foldl (fun res row => if predict m row = row.«class» then res + q else res) a
        = a + ((l.filter fun row => decide (predict m row = row.«class»)).length : ℝ) * q := by
  intro l
  induction l with
  | nil => intro a; simp
  | cons row t ih =>
    intro a
    rw [List.foldl_cons, ih]
    by_cases h : predict m row = row.«class»
    · simp [List.filter_cons, h]
      ring
    · simp [List.filter_cons, h]

/-- Function `Model::get_accuracy` computes the matching-row count divided by the
testing-set size. -/
lemma get_accuracy_eq (m : Model) (S : List Row) :
    get_accuracy m S = (correct_count m S : ℝ) / (S.length : ℝ) := by
  unfold get_accuracy correct_count
  rw [get_accuracy_foldl]
  simp [div_eq_mul_inv, mul_one_div]

/-- Claim C5: on a non-empty testing set, `get_accuracy` returns the fraction of
records whose prediction matches their label, a value in `[0, 1]`; a
single-record testing set yields exactly `1` on a correct prediction and
exactly `0` on an incorrect one. -/
theorem get_accuracy_spec :
    (∀ (m : Model) (S : List Row), S ≠ [] →
      get_accuracy m S = (correct_count m S : ℝ) / (S.length : ℝ) ∧
      0 ≤ get_accuracy m S ∧ get_accuracy m S ≤ 1) ∧
    (∀ (m : Model) (row : Row), predict m row = row.«class» →
      get_accuracy m [row] = 1) ∧
    (∀ (m : Model) (row : Row), predict m row ≠ row.«class» →
      get_accuracy m [row] = 0) := by
  refine ⟨fun m S hne => ?_, fun m row h => ?_, fun m row h => ?_⟩
  · have hlen : 0 < (S.length : ℝ) := by exact_mod_cast List.length_pos.mpr hne
    refine ⟨get_accuracy_eq m S, ?_, ?_⟩
    · rw [get_accuracy_eq]
      positivity
    · rw [get_accuracy_eq, div_le_one hlen]
      exact_mod_cast List.length_filter_le _ S
  · simp [get_accuracy, h]
  · simp [get_accuracy, h]

/-- Witness for `get_accuracy_spec`: the concrete tie model predicts Democrat,
matching the single Democrat test record, so the accuracy is exactly `1`. -/
theorem get_accuracy_spec_witness :
    ([r_test] : List Row) ≠ [] ∧
    (get_accuracy M_tie [r_test]
        = (correct_count M_tie [r_test] : ℝ) / ((List.length [r_test] : ℕ) : ℝ) ∧
      0 ≤ get_accuracy M_tie [r_test] ∧ get_accuracy M_tie [r_test] ≤ 1) ∧
    get_accuracy M_tie [r_test] = 1 :=
  ⟨by simp, get_accuracy_spec.1 M_tie [r_test] (by simp),
    get_accuracy_spec.2.1 M_tie r_test predict_M_tie⟩

/-- Claim C8 (amended): on an empty testing set the accumulation loop never runs,
so `get_accuracy` returns the ordinary value `0`; it does not fail, and the
division by the testing-set size is never executed. -/
theorem get_accuracy_empty (m : Model) : get_accuracy m [] = 0 := rfl

/-- Claim C8 counterexample: evaluating the concrete fitted model on the empty
testing set produces the ordinary accuracy value `0`, refuting the claim that
evaluation of an empty test set fails rather than returning a result. -/
theorem get_accuracy_empty_counterexample : get_accuracy M_tie [] = 0 := rfl

/-- Claim C9: the only run-to-run variation in `Model::new` is the `HashMap`
iteration order of its first loop; as long as the iteration visits every
class (it always does: both entries are inserted beforehand), the fitted
model — and therefore the accuracy measured on any fixed testing set — is
identical across runs. -/
theorem model_fit_deterministic (order₁ order₂ : List Class) (data S : List Row)
    (h₁ : ∀ c : Class, c ∈ order₁) (h₂ : ∀ c : Class, c ∈ order₂) :
    Model.newWithOrder order₁ data = Model.newWithOrder order₂ data ∧
    get_accuracy (Model.newWithOrder order₁ data) S
      = get_accuracy (Model.newWithOrder order₂ data) S := by
  have hinit : initAttrProbs data.length order₁ = initAttrProbs data.length order₂ := by
    funext c i v
    rw [initAttrProbs_apply, initAttrProbs_apply, if_pos (h₁ c), if_pos (h₂ c)]
  have hm : Model.newWithOrder order₁ data = Model.newWithOrder order₂ data := by
    unfold Model.newWithOrder
    rw [hinit]
  exact ⟨hm, by rw [hm]⟩

/-- Witness for `model_fit_deterministic`: the two possible iteration orders
of the two-class map give the same fitted model and the same accuracy. -/
theorem model_fit_deterministic_witness :
    Model.newWithOrder [Class.Republican, Class.Democrat] T_tie
        = Model.newWithOrder [Class.Democrat, Class.Republican] T_tie ∧
    get_accuracy (Model.newWithOrder [Class.Republican, Class.Democrat] T_tie) [r_test]
      = get_accuracy (Model.newWithOrder [Class.Democrat, Class.Republican] T_tie) [r_test] :=
  model_fit_deterministic _ _ T_tie [r_test] (by decide) (by decide)

/-- Once the accumulator of the driver is `Some s`, folding the remaining fold
accuracies adds their sum divided by `CROSSVALIDATION_SPLITS`. -/
lemma driver_avg_go :
    ∀ (l : List ℝ) (s : ℝ),
      l.foldl driver_step (some s) = some (s + l.sum / (CROSSVALIDATION_SPLITS : ℝ)) := by
  intro l
  induction l with
  | nil => intro s; simp [driver_step]
  | cons a t ih =>
    intro s
    rw [List.foldl_cons]
    show t.foldl driver_step (some (s + a / (CROSSVALIDATION_SPLITS : ℝ))) = _
    rw [ih, List.sum_cons, add_div]
    congr 1
    ring

/-- Claim C7: when the driver accumulates `accuracy / CROSSVALIDATION_SPLITS` over
the `K = CROSSVALIDATION_SPLITS` per-fold accuracies, the result is exactly
the arithmetic mean (sum over `K`) of those accuracies, over the real-number
embedding of `f64`. -/
theorem driver_avg_is_mean (accuracies : List ℝ)
    (h : accuracies.length = CROSSVALIDATION_SPLITS) :
    driver_avg accuracies
      = some (accuracies.sum / (CROSSVALIDATION_SPLITS : ℝ)) := by
  cases accuracies with
  | nil => simp at h
  | cons a t =>
    unfold driver_avg
    rw [List.foldl_cons]
    show t.foldl driver_step (some (a / (CROSSVALIDATION_SPLITS : ℝ))) = _
    rw [driver_avg_go, List.sum_cons, add_div]

/-- Witness for `driver_avg_is_mean` on ten concrete per-fold accuracies. -/
theorem driver_avg_is_mean_witness :
    ([(1 : ℝ), 0, 1, 0, 1, 0, 1, 0, 1, 0] : List ℝ).length = CROSSVALIDATION_SPLITS ∧
    driver_avg [(1 : ℝ), 0, 1, 0, 1, 0, 1, 0, 1, 0]
      = some (([(1 : ℝ), 0, 1, 0, 1, 0, 1, 0, 1, 0] : List ℝ).sum
          / (CROSSVALIDATION_SPLITS : ℝ)) :=
  ⟨rfl, driver_avg_is_mean _ rfl⟩

end PartyRecogniser
